import Mathlib

/-!
Verification of the scan report server (`scan.go`).

Shallow embedding of the core logic of `scan.go`: the batch ingestor
(`save`), the report query (`load`), the latest-batch counter of the
`index` handler, and the IP feed (`ips`).

Modelling conventions:

* The SQLite table `scan` is embedded as a `List ScanRecord` (`Store`).
* Timestamps are stored by the Go code as strings produced by
  `now.Format "2006-01-02 15:04"` and read back with `time.Parse` of the
  same layout.  At minute resolution this format is a strictly monotone
  bijection between represented instants and minute counts, and the
  byte-wise SQL ordering of two such fixed-width strings agrees with the
  chronological order, so timestamps are embedded as `Nat` (minutes).
* The SQL fragments become list operations: `WHERE ip LIKE '%'+s+'%'`
  becomes a filter by `likeM` (SQLite's default LIKE: ASCII
  case-insensitive, `%`/`_` wildcards), `ORDER BY port, proto, ip,
  lastseen` becomes `List.insertionSort` by the lexicographic key
  `keyRel`, and `INSERT`/`UPDATE`/point `SELECT` act on the list.
* Store I/O failures (`db.Query`, `Exec`, `QueryRow(...).Scan`) are
  injected through an `ErrModel` oracle; `save`'s transaction works on a
  scratch store `τ` and every error branch returns the pre-transaction
  store (the embedding of `txn.Rollback()`).  The lookup statement `qry`
  is prepared on `db` (scan.go line 104), not on `txn`, so lookups read
  the pre-transaction snapshot `σ0` throughout the batch.
* Go's unguarded `r.Ports[0]` (scan.go line 120) is embedded totally:
  an entry with an empty `Ports` list reaches the distinguished
  `indexOutOfRange` outcome instead of a Go runtime panic.
-/

namespace Scan

/-- Wire shape of one port descriptor posted by masscan (`type port`). -/
structure port where
  Port : Int
  Proto : String
  Status : String
  ServiceName : String
  ServiceBanner : String
deriving DecidableEq, Repr

/-- One entry of the posted batch (`type result`): an IP with its ports. -/
structure result where
  IP : String
  Ports : List port
deriving DecidableEq, Repr

/-- One row of the `scan` table: identity tuple plus the two timestamps
(minute resolution, embedded as `Nat`, see the module docstring). -/
structure ScanRecord where
  ip : String
  port : Int
  proto : String
  firstseen : Nat
  lastseen : Nat
deriving DecidableEq, Repr

/-- The persistent store: the rows of the `scan` table. -/
abbrev Store := List ScanRecord

/-- Row shape handed to the template (`type scandata`), with the computed
`New` flag. -/
structure scandata where
  IP : String
  Port : Int
  Proto : String
  FirstSeen : Nat
  LastSeen : Nat
  New : Bool
deriving DecidableEq, Repr

/-! ## SQLite LIKE matching -/

/-- SQLite's default LIKE folds only the ASCII range. -/
def lowerChar (c : Char) : Char :=
  if 'A' ≤ c ∧ c ≤ 'Z' then Char.ofNat (c.toNat + 32) else c

/-- All suffixes of a character list (longest first, ending with `[]`). -/
def tailsL : List Char → List (List Char)
  | [] => [[]]
  | c :: t => (c :: t) :: tailsL t

/-- SQLite LIKE pattern matching (default `case_sensitive_like` off):
`%` matches any sequence, `_` any single character, and a plain
character matches ASCII-case-insensitively. -/
def likeM : List Char → List Char → Bool
  | [], t => t.isEmpty
  | c :: p, t =>
    if c = '%' then (tailsL t).any (fun t2 => likeM p t2)
    else
      match t with
      | [] => false
      | d :: t2 => (if c = '_' then true else lowerChar c == lowerChar d) && likeM p t2

/-- The WHERE clause of `load`: no filter when `s` is empty, otherwise
`ip LIKE '%'+s+'%'` (scan.go lines 55-59). -/
def rowMatches (s : String) (ip : String) : Bool :=
  if s = "" then true
  else likeM ('%' :: (s.data ++ ['%'])) ip.data

/-- Spec-side notion used by the spec's wording: `needle` occurs as a
contiguous substring of `hay`. -/
def containsSub (needle hay : List Char) : Bool :=
  (tailsL hay).any (fun t => needle.isPrefixOf t)

/-! ## ORDER BY port, proto, ip, lastseen -/

/-- One lexicographic step: strictly smaller first component wins,
strictly larger loses, ties defer to the rest of the key. -/
def lexStep {α : Type} [LinearOrder α] (x y : α) (rest : Bool) : Bool :=
  if x < y then true else if y < x then false else rest

/-- The ORDER BY key of `load`'s query, as a boolean lexicographic
comparison on `(port, proto, ip, lastseen)`. -/
def keyLe (a b : ScanRecord) : Bool :=
  lexStep a.port b.port (lexStep a.proto b.proto (lexStep a.ip b.ip (a.lastseen ≤ b.lastseen)))

/-- `keyLe` as a relation, for `List.insertionSort`. -/
def keyRel (a b : ScanRecord) : Prop := keyLe a b = true

instance : DecidableRel keyRel := fun a b => inferInstanceAs (Decidable (keyLe a b = true))

/-- The same ordering key read off a report row (`scandata` carries the
four key columns unchanged). -/
def rowKeyLe (a b : scandata) : Bool :=
  lexStep a.Port b.Port (lexStep a.Proto b.Proto (lexStep a.IP b.IP (a.LastSeen ≤ b.LastSeen)))

/-- `rowKeyLe` as a relation on report rows. -/
def rowRel (a b : scandata) : Prop := rowKeyLe a b = true

/-! ## load (scan.go lines 48-84) -/

/-- The row loop body of `load`: a DB row becomes a `scandata`, with
`New := l.Equal(f)` — the parsed `lastseen` equals the parsed
`firstseen` (scan.go lines 78-80). -/
def toRow (r : ScanRecord) : scandata :=
  ⟨r.ip, r.port, r.proto, r.firstseen, r.lastseen, r.lastseen == r.firstseen⟩

/-- `load`: SELECT with the optional LIKE filter and the four-column
ORDER BY, then the scan loop building `scandata` rows. -/
def load (σ : Store) (s : String) : List scandata :=
  (List.insertionSort keyRel (σ.filter (fun r => rowMatches s r.ip))).map toRow

/-! ## index handler: the Latest counter (scan.go lines 180-193) -/

/-- First loop of `index`: fold the maximum `lastSeen` starting from the
zero time (`last.After(latest)` is a strict comparison). -/
def indexLatestTime (rows : List scandata) : Nat :=
  rows.foldl (fun latest r => if latest < r.LastSeen then r.LastSeen else latest) 0

/-- Second loop of `index`: count the rows whose `lastSeen` equals the
folded maximum (`last.Equal(latest)` increments `data.Latest`). -/
def indexLatest (rows : List scandata) : Nat :=
  rows.countP (fun r => r.LastSeen == indexLatestTime rows)

/-- Spec-side maximum: `max(lastSeen)` over the row set. -/
def specMaxLS (rows : List scandata) : Nat :=
  (rows.map scandata.LastSeen).foldr max 0

/-! ## ips handler (scan.go lines 200-210) -/

/-- `ips`: load everything unfiltered and collect each row's IP. -/
def ips (σ : Store) : List String :=
  (load σ "").map scandata.IP

/-! ## save (scan.go lines 87-150) -/

/-- Outcomes of a save call: the Go panic on `r.Ports[0]`, a lookup
failure other than `ErrNoRows`, an insert failure, the key-constraint
insert failure, or an update failure. -/
inductive SaveErr where
  | indexOutOfRange
  | lookupErr
  | insertErr
  | constraintErr
  | updateErr
deriving DecidableEq, Repr

/-- Injected store failures, per statement and identity tuple: whether
the point SELECT, the INSERT or the UPDATE errors for that tuple. -/
structure ErrModel where
  lookupFails : String → Int → String → Bool
  insertFails : String → Int → String → Bool
  updateFails : String → Int → String → Bool

/-- The error-free oracle. -/
def noErr : ErrModel := ⟨fun _ _ _ => false, fun _ _ _ => false, fun _ _ _ => false⟩

/-- Does this record carry the identity tuple? -/
def recMatches (ip : String) (prt : Int) (proto : String) (rec : ScanRecord) : Bool :=
  rec.ip == ip && rec.port == prt && rec.proto == proto

/-- The point SELECT of `save`: is the tuple present? -/
def hasTuple (σ : Store) (ip : String) (prt : Int) (proto : String) : Bool :=
  σ.any (recMatches ip prt proto)

/-- Number of records carrying the identity tuple. -/
def countTuple (σ : Store) (ip : String) (prt : Int) (proto : String) : Nat :=
  σ.countP (recMatches ip prt proto)

/-- `UPDATE scan SET lastseen=? WHERE ip=? AND port=? AND proto=?`. -/
def applyUpdate (now : Nat) (ip : String) (prt : Int) (proto : String) (τ : Store) : Store :=
  τ.map (fun rec => if recMatches ip prt proto rec then { rec with lastseen := now } else rec)

/-- Result of a save call: the persistent store after the call and the
surfaced error, if any. -/
structure SaveOutcome where
  store : Store
  err : Option SaveErr
deriving DecidableEq, Repr

/-- The per-entry loop of `save` (scan.go lines 118-146).  `σ0` is the
committed pre-transaction store the `db`-prepared lookup reads; `τ` is
the transaction's working store.  Every error branch embeds
`txn.Rollback(); return err` by returning `σ0` with the error.

Modelled from the spec: the `CREATE TABLE` statement for `scan` is not
part of src/; per the spec (§6) the table is "keyed by (ip, port,
proto)", so an INSERT of a tuple already present in the transaction's
store fails with `constraintErr`. -/
def saveLoop (em : ErrModel) (σ0 : Store) (now : Nat) : List result → Store → SaveOutcome
  | [], τ => ⟨τ, none⟩
  | r :: rest, τ =>
    match r.Ports with
    | [] => ⟨σ0, some SaveErr.indexOutOfRange⟩
    | p :: _ =>
      if em.lookupFails r.IP p.Port p.Proto then ⟨σ0, some SaveErr.lookupErr⟩
      else if hasTuple σ0 r.IP p.Port p.Proto then
        if em.updateFails r.IP p.Port p.Proto then ⟨σ0, some SaveErr.updateErr⟩
        else saveLoop em σ0 now rest (applyUpdate now r.IP p.Port p.Proto τ)
      else if em.insertFails r.IP p.Port p.Proto then ⟨σ0, some SaveErr.insertErr⟩
      else if hasTuple τ r.IP p.Port p.Proto then ⟨σ0, some SaveErr.constraintErr⟩
      else saveLoop em σ0 now rest (τ ++ [⟨r.IP, p.Port, p.Proto, now, now⟩])

/-- `save`: compute `now` once (scan.go lines 115-116), then run the
transaction loop over the batch and commit. -/
def save (em : ErrModel) (σ : Store) (now : Nat) (results : List result) : SaveOutcome :=
  saveLoop em σ now results σ

/-! ## Derived notions used by the specification's claims -/

/-- A filter character that is neither a LIKE wildcard nor an ASCII
letter: on such characters LIKE matching degenerates to literal
equality. -/
def plainChar (c : Char) : Bool :=
  !(c == '%') && !(c == '_') &&
    !(decide ('A' ≤ c) && decide (c ≤ 'Z')) && !(decide ('a' ≤ c) && decide (c ≤ 'z'))

/-- At most one record per identity tuple. -/
def TupleUnique (σ : Store) : Prop :=
  List.Pairwise (fun a b => ¬(a.ip = b.ip ∧ a.port = b.port ∧ a.proto = b.proto)) σ

/-- Store states reachable from the empty store by successful ingest
calls whose batch timestamps never decrease; the index carries the
timestamp of the last batch. -/
inductive Reachable : Nat → Store → Prop where
  | init : Reachable 0 []
  | step {t : Nat} {σ : Store} (em : ErrModel) (batch : List result) (now : Nat) :
      Reachable t σ → t ≤ now → (save em σ now batch).err = none →
      Reachable now (save em σ now batch).store

/-! ## Concrete fixtures for witnesses and counterexamples -/

/-- A port descriptor for ssh over tcp, as masscan would post it. -/
def sshPort : port := ⟨22, "tcp", "open", "ssh", ""⟩

/-- C1's concrete scenario: the tuple `(10.0.0.1,22,tcp)` ingested at
minute T1 = 0 and re-ingested at minute T2 = 5. -/
def c1Store : Store := [⟨"10.0.0.1", 22, "tcp", 0, 5⟩]

/-- A store whose single record was seen by exactly one batch. -/
def c2Store : Store := [⟨"10.0.0.1", 22, "tcp", 3, 3⟩]

/-- A pre-batch store state for the mid-batch failure scenario. -/
def c3Store : Store := [⟨"8.8.8.8", 53, "udp", 1, 2⟩]

/-- A three-row batch over fresh tuples. -/
def c3Batch : List result :=
  [⟨"10.0.0.1", [sshPort]⟩, ⟨"10.0.0.2", [sshPort]⟩, ⟨"10.0.0.3", [sshPort]⟩]

/-- An oracle that fails the INSERT of the batch's second row. -/
def c3Em : ErrModel :=
  ⟨fun _ _ _ => false, fun ip _ _ => ip == "10.0.0.2", fun _ _ _ => false⟩

/-- A store holding the tuple `(10.0.0.1,22,tcp)` plus one unrelated
record. -/
def c4Store : Store := [⟨"10.0.0.1", 22, "tcp", 3, 3⟩, ⟨"8.8.8.8", 53, "udp", 1, 2⟩]

/-- A single-entry batch over a never-before-seen tuple. -/
def c5Batch : List result := [⟨"10.0.0.1", [sshPort]⟩]

/-- A store with one uppercase IP string. -/
def c7Store : Store := [⟨"A", 1, "t", 0, 0⟩]

/-- A store where one IP carries two ports, hence two records. -/
def c8Store : Store := [⟨"9.9.9.9", 1, "tcp", 0, 0⟩, ⟨"9.9.9.9", 2, "tcp", 0, 0⟩]

/-- A batch entry with an empty ports list, the shape that reaches the
unguarded `r.Ports[0]`. -/
def emptyPortsBatch : List result := [⟨"10.0.0.1", []⟩]

/-! ## Order lemmas for the sort key -/

theorem lexStep_iff {α : Type} [LinearOrder α] (x y : α) (rest : Bool) :
    lexStep x y rest = true ↔ x < y ∨ x = y ∧ rest = true := by
  unfold lexStep
  rcases lt_trichotomy x y with h | h | h
  · simp [h]
  · simp [h]
  · simp [asymm h, h, ne_of_gt h]

theorem keyLe_iff (a b : ScanRecord) :
    keyLe a b = true ↔
      a.port < b.port ∨ a.port = b.port ∧
        (a.proto < b.proto ∨ a.proto = b.proto ∧
          (a.ip < b.ip ∨ a.ip = b.ip ∧ a.lastseen ≤ b.lastseen)) := by
  simp [keyLe, lexStep_iff]

theorem lexProp_trans {α : Type} [LinearOrder α] {x y z : α} {P Q R : Prop}
    (hPQ : P → Q → R)
    (h1 : x < y ∨ x = y ∧ P) (h2 : y < z ∨ y = z ∧ Q) :
    x < z ∨ x = z ∧ R := by
  rcases h1 with h1 | ⟨e1, hp⟩
  · rcases h2 with h2 | ⟨e2, _⟩
    · exact Or.inl (lt_trans h1 h2)
    · exact Or.inl (lt_of_lt_of_eq h1 e2)
  · rcases h2 with h2 | ⟨e2, hq⟩
    · exact Or.inl (lt_of_eq_of_lt e1 h2)
    · exact Or.inr ⟨e1.trans e2, hPQ hp hq⟩

theorem lexProp_total {α : Type} [LinearOrder α] (x y : α) {P Q : Prop} (hPQ : P ∨ Q) :
    (x < y ∨ x = y ∧ P) ∨ (y < x ∨ y = x ∧ Q) := by
  rcases lt_trichotomy x y with h | h | h
  · exact Or.inl (Or.inl h)
  · rcases hPQ with hp | hq
    · exact Or.inl (Or.inr ⟨h, hp⟩)
    · exact Or.inr (Or.inr ⟨h.symm, hq⟩)
  · exact Or.inr (Or.inl h)

theorem keyLe_trans (a b c : ScanRecord) (h1 : keyLe a b = true) (h2 : keyLe b c = true) :
    keyLe a c = true := by
  rw [keyLe_iff] at h1 h2 ⊢
  exact lexProp_trans (lexProp_trans (lexProp_trans Nat.le_trans)) h1 h2

theorem keyLe_total (a b : ScanRecord) : keyLe a b = true ∨ keyLe b a = true := by
  rw [keyLe_iff, keyLe_iff]
  exact lexProp_total _ _ (lexProp_total _ _ (lexProp_total _ _ (Nat.le_total _ _)))

instance : IsTotal ScanRecord keyRel := ⟨keyLe_total⟩

instance : IsTrans ScanRecord keyRel := ⟨keyLe_trans⟩

/-- `toRow` copies the four ORDER BY columns, so the row comparison on
two loaded rows is the record comparison. -/
theorem rowKeyLe_toRow (a b : ScanRecord) : rowKeyLe (toRow a) (toRow b) = keyLe a b := rfl

/-! ## Basic lemmas about load -/

theorem load_perm (σ : Store) (s : String) :
    (load σ s).Perm ((σ.filter (fun r => rowMatches s r.ip)).map toRow) :=
  (List.perm_insertionSort keyRel (σ.filter (fun r => rowMatches s r.ip))).map toRow

theorem load_sorted (σ : Store) (s : String) : List.Sorted rowRel (load σ s) :=
  List.Pairwise.map toRow (fun _ _ hab => hab)
    (List.sorted_insertionSort keyRel (σ.filter (fun r => rowMatches s r.ip)))

/-! ## LIKE pattern lemmas -/

theorem charEq_of_toNat_eq {c d : Char} (h : c.toNat = d.toNat) : c = d :=
  Char.eq_of_val_eq (UInt32.eq_of_toBitVec_eq (BitVec.eq_of_toNat_eq h))

theorem toNat_ofNat_valid {n : Nat} (h : n.isValidChar) : (Char.ofNat n).toNat = n := by
  simp [Char.ofNat, h, Char.ofNatAux, Char.toNat, UInt32.toNat]

theorem plainChar_spec {c : Char} (h : plainChar c = true) :
    ¬(c = '%') ∧ ¬(c = '_') ∧ ¬('A' ≤ c ∧ c ≤ 'Z') ∧ ¬('a' ≤ c ∧ c ≤ 'z') := by
  simp only [plainChar, Bool.and_eq_true, Bool.not_eq_true', beq_eq_false_iff_ne, ne_eq,
    Bool.and_eq_false_iff, decide_eq_false_iff_not] at h
  obtain ⟨⟨⟨h1, h2⟩, h3⟩, h4⟩ := h
  refine ⟨h1, h2, ?_, ?_⟩
  · rintro ⟨ha, hb⟩
    rcases h3 with h3 | h3 <;> exact h3 ‹_›
  · rintro ⟨ha, hb⟩
    rcases h4 with h4 | h4 <;> exact h4 ‹_›

theorem lowerChar_beq_of_plain {c : Char} (h : plainChar c = true) (d : Char) :
    (lowerChar c == lowerChar d) = (c == d) := by
  obtain ⟨-, -, hcu, hcl⟩ := plainChar_spec h
  have hcc : lowerChar c = c := by unfold lowerChar; rw [if_neg hcu]
  by_cases hd : 'A' ≤ d ∧ d ≤ 'Z'
  · have h65 : 65 ≤ d.toNat := hd.1
    have h90 : d.toNat ≤ 90 := hd.2
    have hval : (d.toNat + 32).isValidChar := Or.inl (by omega)
    have htn : (Char.ofNat (d.toNat + 32)).toNat = d.toNat + 32 := toNat_ofNat_valid hval
    have hld : lowerChar d = Char.ofNat (d.toNat + 32) := by unfold lowerChar; rw [if_pos hd]
    have hne1 : c ≠ d := by
      intro he
      subst he
      exact hcu hd
    have hne2 : c ≠ Char.ofNat (d.toNat + 32) := by
      intro he
      have hce : c.toNat = d.toNat + 32 := by rw [he, htn]
      have hcl' : ¬(97 ≤ c.toNat ∧ c.toNat ≤ 122) := fun hx => hcl ⟨hx.1, hx.2⟩
      omega
    have e1 : (c == Char.ofNat (d.toNat + 32)) = false := by simp [hne2]
    have e2 : (c == d) = false := by simp [hne1]
    rw [hcc, hld, e1, e2]
  · have hld : lowerChar d = d := by unfold lowerChar; rw [if_neg hd]
    rw [hcc, hld]

theorem tailsL_mem_nil (t : List Char) : [] ∈ tailsL t := by
  induction t with
  | nil => simp [tailsL]
  | cons c t ih => simp only [tailsL, List.mem_cons]; exact Or.inr ih

theorem containsSub_nil (hay : List Char) : containsSub [] hay = true := by
  unfold containsSub
  rw [List.any_eq_true]
  exact ⟨[], tailsL_mem_nil hay, rfl⟩

theorem likeM_percent (p t : List Char) :
    likeM ('%' :: p) t = (tailsL t).any (fun t2 => likeM p t2) := by
  simp [likeM]

theorem likeM_lit (lit : List Char) (hlit : lit.all plainChar = true) :
    ∀ t, likeM (lit ++ ['%']) t = lit.isPrefixOf t := by
  induction lit with
  | nil =>
    intro t
    have hr : List.isPrefixOf ([] : List Char) t = true := by cases t <;> rfl
    rw [List.nil_append, hr, likeM_percent, List.any_eq_true]
    exact ⟨[], tailsL_mem_nil t, rfl⟩
  | cons c lit ih =>
    intro t
    rw [List.all_cons, Bool.and_eq_true] at hlit
    obtain ⟨hc, hrest⟩ := hlit
    obtain ⟨hcp, hcu, -, -⟩ := plainChar_spec hc
    cases t with
    | nil =>
      show likeM (c :: (lit ++ ['%'])) [] = false
      simp [likeM, hcp]
    | cons d t2 =>
      show likeM (c :: (lit ++ ['%'])) (d :: t2) = ((c == d) && lit.isPrefixOf t2)
      simp only [likeM, if_neg hcp, if_neg hcu]
      rw [ih hrest, lowerChar_beq_of_plain hc d]

theorem rowMatches_plain (s ip : String) (hs : s.data.all plainChar = true) :
    rowMatches s ip = containsSub s.data ip.data := by
  unfold rowMatches
  by_cases he : s = ""
  · rw [if_pos he]
    subst he
    exact (containsSub_nil ip.data).symm
  · rw [if_neg he, likeM_percent]
    unfold containsSub
    simp only [likeM_lit s.data hs]

theorem load_mem (σ : Store) (s : String) (row : scandata) :
    row ∈ load σ s ↔ ∃ rec ∈ σ, rowMatches s rec.ip = true ∧ toRow rec = row := by
  rw [(load_perm σ s).mem_iff]
  simp only [List.mem_map, List.mem_filter]
  constructor
  · rintro ⟨rec, ⟨hm, hf⟩, he⟩
    exact ⟨rec, hm, hf, he⟩
  · rintro ⟨rec, hm, hf, he⟩
    exact ⟨rec, ⟨hm, hf⟩, he⟩

/-! ## Latest-batch counter lemmas -/

theorem foldl_max_eq (l : List scandata) (a : Nat) :
    l.foldl (fun latest r => if latest < r.LastSeen then r.LastSeen else latest) a
      = max a (specMaxLS l) := by
  induction l generalizing a with
  | nil => simp [specMaxLS]
  | cons r t ih =>
    simp only [List.foldl_cons, specMaxLS, List.map_cons, List.foldr_cons] at ih ⊢
    rw [ih]
    rcases Nat.lt_or_ge a r.LastSeen with h | h
    · rw [if_pos h]
      omega
    · rw [if_neg (Nat.not_lt.mpr h)]
      omega

theorem indexLatestTime_eq (rows : List scandata) : indexLatestTime rows = specMaxLS rows := by
  have h := foldl_max_eq rows 0
  simpa [indexLatestTime] using h

/-! ## Claim C1 -/

/-- C1, counterexample: in the concrete T2 re-ingest scenario (record
`(10.0.0.1,22,tcp,T1=0,T2=5)`), the single loaded row has `lastSeen`
equal to the maximum `lastSeen` of the loaded set, yet its `isNew` flag
is false — the code computes the flag as `lastSeen == firstSeen`
(scan.go line 80), not as equality with the batch maximum. -/
theorem c1_counterexample :
    ¬ ∀ row ∈ load c1Store "",
        (row.New = true ↔ row.LastSeen = specMaxLS (load c1Store "")) := by
  decide

/-- C1, amended: the `max(lastSeen)` derivation feeds the `Latest`
counter of the `index` handler, not the per-row flag: for every query,
the handler's folded latest time is the maximum `lastSeen` of the
loaded rows and its `Latest` count is the number of loaded rows whose
`lastSeen` equals that maximum; in the T2 re-ingest scenario the single
returned row has `isNew = false` (its `lastSeen` T2 differs from its
`firstSeen` T1) while the `Latest` count is 1. -/
theorem c1_amended :
    (∀ σ s, indexLatestTime (load σ s) = specMaxLS (load σ s) ∧
      indexLatest (load σ s)
        = (load σ s).countP (fun r => r.LastSeen == specMaxLS (load σ s))) ∧
    load c1Store "" = [⟨"10.0.0.1", 22, "tcp", 0, 5, false⟩] ∧
    indexLatest (load c1Store "") = 1 := by
  refine ⟨fun σ s => ?_, by decide, by decide⟩
  have h := indexLatestTime_eq (load σ s)
  refine ⟨h, ?_⟩
  unfold indexLatest
  rw [h]

/-! ## Claim C2 -/

/-- C2: every row returned by the query has `New = true` exactly when
its `lastSeen` equals its `firstSeen` (scan.go lines 78-80). -/
theorem c2_new_iff (σ : Store) (s : String) (row : scandata) (h : row ∈ load σ s) :
    row.New = true ↔ row.LastSeen = row.FirstSeen := by
  rcases (load_mem σ s row).mp h with ⟨rec, -, -, he⟩
  subst he
  show (rec.lastseen == rec.firstseen) = true ↔ rec.lastseen = rec.firstseen
  exact beq_iff_eq

/-- C2 witness: the flag equivalence at a concrete loaded row. -/
theorem c2_witness :
    ((⟨"10.0.0.1", 22, "tcp", 3, 3, true⟩ : scandata).New = true
      ↔ (⟨"10.0.0.1", 22, "tcp", 3, 3, true⟩ : scandata).LastSeen
          = (⟨"10.0.0.1", 22, "tcp", 3, 3, true⟩ : scandata).FirstSeen) :=
  c2_new_iff c2Store "" ⟨"10.0.0.1", 22, "tcp", 3, 3, true⟩ (by decide)

/-! ## Claim C7 -/

/-- C7, counterexample: with the store holding the single IP `"A"` and
the filter `"a"`, the query returns a row (SQLite LIKE is ASCII
case-insensitive) although no stored IP contains `"a"` as a substring,
so the returned rows are not exactly the substring matches. -/
theorem c7_counterexample :
    load c7Store "a" ≠ [] ∧
    c7Store.filter (fun r => containsSub "a".data r.ip.data) = [] := by
  constructor <;> decide

/-- C7, amended: the query returns exactly the stored records whose IP
matches the LIKE pattern built from the filter (all records when the
filter is empty), sorted ascending by `(port, proto, ip, lastSeen)`;
LIKE matching coincides with substring containment whenever the filter
contains no wildcard characters and no ASCII letters. -/
theorem c7_amended :
    (∀ σ s, (load σ s).Perm ((σ.filter (fun r => rowMatches s r.ip)).map toRow)) ∧
    (∀ σ s, List.Sorted rowRel (load σ s)) ∧
    (∀ ip, rowMatches "" ip = true) ∧
    (∀ s ip, s.data.all plainChar = true → rowMatches s ip = containsSub s.data ip.data) :=
  ⟨load_perm, load_sorted, fun _ => rfl, fun s ip hs => rowMatches_plain s ip hs⟩

/-- C7 witness: the LIKE-vs-substring agreement at a concrete
letter-free filter. -/
theorem c7_witness : rowMatches "0.0" "10.0.0.1" = containsSub "0.0".data "10.0.0.1".data :=
  c7_amended.2.2.2 "0.0" "10.0.0.1" (by decide)

/-! ## Claim C8 -/

/-- C8, counterexample: an IP stored with two ports appears twice in
the `ips` feed — the handler collects every row's IP (scan.go lines
206-208) and never removes duplicates. -/
theorem c8_counterexample :
    ips c8Store = ["9.9.9.9", "9.9.9.9"] ∧ List.count "9.9.9.9" (ips c8Store) ≠ 1 := by
  constructor <;> decide

/-- C8, amended: the feed lists the IP of every stored record (in
report order), once per record: each IP occurs as many times as there
are records bearing it. -/
theorem c8_amended :
    (∀ σ, (ips σ).Perm (σ.map ScanRecord.ip)) ∧
    (∀ σ ip, List.count ip (ips σ) = σ.countP (fun r => r.ip == ip)) := by
  have hperm : ∀ σ : Store, (ips σ).Perm (σ.map ScanRecord.ip) := by
    intro σ
    have h1 := load_perm σ ""
    have h2 : σ.filter (fun r => rowMatches "" r.ip) = σ :=
      List.filter_eq_self.mpr (fun a _ => rfl)
    rw [h2] at h1
    have h3 : (ips σ).Perm ((σ.map toRow).map scandata.IP) := h1.map scandata.IP
    rw [List.map_map] at h3
    exact h3
  refine ⟨hperm, fun σ ip => ?_⟩
  rw [(hperm σ).count_eq ip]
  show List.countP (· == ip) (σ.map ScanRecord.ip) = _
  rw [List.countP_map]
  rfl

/-! ## Claim C9 -/

/-- C9: the query never fails for lack of matches — the empty store
loads to the empty row list, and so does any store none of whose
records passes the filter. -/
theorem c9_no_match_empty :
    (∀ s, load [] s = []) ∧
    (∀ σ s, (∀ rec ∈ σ, rowMatches s rec.ip = false) → load σ s = []) := by
  constructor
  · intro s
    rfl
  · intro σ s h
    unfold load
    rw [List.filter_eq_nil_iff.mpr (fun a ha => by simp [h a ha])]
    rfl

/-- C9 witness: a non-matching filter over a concrete store loads to
the empty sequence. -/
theorem c9_witness : load [(⟨"10.0.0.1", 22, "tcp", 0, 0⟩ : ScanRecord)] "zzz" = [] :=
  c9_no_match_empty.2 _ "zzz" (by decide)

/-! ## Transaction loop lemmas -/

theorem saveLoop_rollback (em : ErrModel) (σ0 : Store) (now : Nat) :
    ∀ rest τ, (saveLoop em σ0 now rest τ).err = none ∨ (saveLoop em σ0 now rest τ).store = σ0 := by
  intro rest
  induction rest with
  | nil =>
    intro τ
    exact Or.inl rfl
  | cons r rest ih =>
    intro τ
    rcases hpp : r.Ports with _ | ⟨p, ps⟩ <;> simp only [saveLoop, hpp]
    · simp
    · split_ifs with h1 h2 h3 h4 h5
      · exact Or.inr rfl
      · exact Or.inr rfl
      · exact ih _
      · exact Or.inr rfl
      · exact Or.inr rfl
      · exact ih _

theorem saveLoop_no_oob (em : ErrModel) (σ0 : Store) (now : Nat) :
    ∀ rest τ, (∀ e ∈ rest, e.Ports ≠ []) →
      (saveLoop em σ0 now rest τ).err ≠ some SaveErr.indexOutOfRange := by
  intro rest
  induction rest with
  | nil =>
    intro τ _
    simp [saveLoop]
  | cons r rest ih =>
    intro τ h
    have hr : r.Ports ≠ [] := h r (List.mem_cons_self r rest)
    rcases hpp : r.Ports with _ | ⟨p, ps⟩
    · exact absurd hpp hr
    · simp only [saveLoop, hpp]
      split_ifs with h1 h2 h3 h4 h5
      · simp
      · simp
      · exact ih _ (fun e he => h e (List.mem_cons_of_mem r he))
      · simp
      · simp
      · exact ih _ (fun e he => h e (List.mem_cons_of_mem r he))

/-! ## Claim C3 -/

/-- C3: ingestion of a batch is all-or-nothing — whenever a save call
surfaces an error the persistent store it leaves behind is exactly the
pre-batch store (every failing branch runs the rollback); concretely, a
simulated store failure on the second of three fresh rows leaves the
pre-batch store unchanged and surfaces the insert error. -/
theorem c3_atomicity :
    (∀ em σ now batch,
      (save em σ now batch).err = none ∨ (save em σ now batch).store = σ) ∧
    save c3Em c3Store 9 c3Batch = ⟨c3Store, some SaveErr.insertErr⟩ :=
  ⟨fun em σ now batch => saveLoop_rollback em σ now batch σ, rfl⟩

/-! ## Claim C10 -/

/-- C10: the unguarded `r.Ports[0]` of `save` (scan.go line 120) never
reaches the out-of-range outcome when every entry of the batch carries
at least one port descriptor, and a batch whose entry has an empty
ports list does reach it. -/
theorem c10_unguarded_head :
    (∀ em σ now batch, (∀ e ∈ batch, e.Ports ≠ []) →
      (save em σ now batch).err ≠ some SaveErr.indexOutOfRange) ∧
    (save noErr [] 0 emptyPortsBatch).err = some SaveErr.indexOutOfRange :=
  ⟨fun em σ now batch h => saveLoop_no_oob em σ now batch σ h, rfl⟩

/-- C10 witness: a concrete one-entry batch with a non-empty ports list
does not reach the out-of-range outcome. -/
theorem c10_witness :
    (save noErr [] 0 [(⟨"10.0.0.1", [sshPort]⟩ : result)]).err
      ≠ some SaveErr.indexOutOfRange :=
  c10_unguarded_head.1 noErr [] 0 [⟨"10.0.0.1", [sshPort]⟩] (by decide)

/-! ## Claim C4 -/

/-- C4: re-ingesting an already-stored tuple as a one-entry batch
succeeds and performs exactly the UPDATE — the resulting store is the
old one with `lastseen := now` on the records carrying the tuple;
moreover the identity columns and `firstseen` of every record are left
untouched, and every record not carrying the tuple is still present
unchanged. -/
theorem c4_update_frame (σ : Store) (now : Nat) (ip : String) (p : port) (ps : List port)
    (h : hasTuple σ ip p.Port p.Proto = true) :
    save noErr σ now [⟨ip, p :: ps⟩] = ⟨applyUpdate now ip p.Port p.Proto σ, none⟩ ∧
    (applyUpdate now ip p.Port p.Proto σ).map
        (fun rec => (rec.ip, rec.port, rec.proto, rec.firstseen))
      = σ.map (fun rec => (rec.ip, rec.port, rec.proto, rec.firstseen)) ∧
    ∀ rec ∈ σ, recMatches ip p.Port p.Proto rec = false →
      rec ∈ applyUpdate now ip p.Port p.Proto σ := by
  refine ⟨?_, ?_, ?_⟩
  · simp [save, saveLoop, noErr, h]
  · rw [applyUpdate, List.map_map]
    apply List.map_congr_left
    intro a _
    by_cases hm : recMatches ip p.Port p.Proto a = true
    · simp [Function.comp, hm]
    · simp [Function.comp, hm]
  · intro rec hm hf
    unfold applyUpdate
    rw [List.mem_map]
    exact ⟨rec, hm, by rw [if_neg (by rw [hf]; exact Bool.false_ne_true)]⟩

/-- C4 witness: the concrete two-record store with the tuple
`(10.0.0.1,22,tcp)` re-ingested at minute 7 — only that record's
`lastseen` moves to 7. -/
theorem c4_witness :
    save noErr c4Store 7 [⟨"10.0.0.1", [sshPort]⟩]
      = ⟨[⟨"10.0.0.1", 22, "tcp", 3, 7⟩, ⟨"8.8.8.8", 53, "udp", 1, 2⟩], none⟩ := by
  have h := c4_update_frame c4Store 7 "10.0.0.1" sshPort [] (by decide)
  rw [h.1]
  decide

/-! ## Tuple counting lemmas -/

theorem recMatches_self (rec : ScanRecord) : recMatches rec.ip rec.port rec.proto rec = true := by
  simp [recMatches]

theorem hasTuple_of_mem {σ : Store} {rec : ScanRecord} (h : rec ∈ σ) :
    hasTuple σ rec.ip rec.port rec.proto = true := by
  unfold hasTuple
  rw [List.any_eq_true]
  exact ⟨rec, h, recMatches_self rec⟩

theorem recMatches_update (ip : String) (prt : Int) (proto : String) (now : Nat)
    (ip2 : String) (p2 : Int) (proto2 : String) (rec : ScanRecord) :
    recMatches ip prt proto
        (if recMatches ip2 p2 proto2 rec then { rec with lastseen := now } else rec)
      = recMatches ip prt proto rec := by
  split <;> rfl

theorem countTuple_applyUpdate (now : Nat) (ip2 : String) (p2 : Int) (proto2 : String)
    (ip : String) (prt : Int) (proto : String) (τ : Store) :
    countTuple (applyUpdate now ip2 p2 proto2 τ) ip prt proto = countTuple τ ip prt proto := by
  unfold countTuple applyUpdate
  rw [List.countP_map]
  have hfun : (recMatches ip prt proto ∘ fun rec =>
      if recMatches ip2 p2 proto2 rec then { rec with lastseen := now } else rec)
      = recMatches ip prt proto :=
    funext (fun rec => recMatches_update ip prt proto now ip2 p2 proto2 rec)
  rw [hfun]

theorem hasTuple_applyUpdate (now : Nat) (ip2 : String) (p2 : Int) (proto2 : String)
    (ip : String) (prt : Int) (proto : String) (τ : Store) :
    hasTuple (applyUpdate now ip2 p2 proto2 τ) ip prt proto = hasTuple τ ip prt proto := by
  unfold hasTuple applyUpdate
  rw [List.any_map]
  have hfun : (recMatches ip prt proto ∘ fun rec =>
      if recMatches ip2 p2 proto2 rec then { rec with lastseen := now } else rec)
      = recMatches ip prt proto :=
    funext (fun rec => recMatches_update ip prt proto now ip2 p2 proto2 rec)
  rw [hfun]

theorem countTuple_append_one (τ : Store) (rec : ScanRecord)
    (ip : String) (prt : Int) (proto : String) :
    countTuple (τ ++ [rec]) ip prt proto
      = countTuple τ ip prt proto + (if recMatches ip prt proto rec then 1 else 0) := by
  unfold countTuple
  rw [List.countP_append]
  congr 1
  cases h : recMatches ip prt proto rec <;> simp [List.countP_cons, h]

theorem hasTuple_false_count {τ : Store} {ip : String} {prt : Int} {proto : String} :
    hasTuple τ ip prt proto = false ↔ countTuple τ ip prt proto = 0 := by
  simp [hasTuple, countTuple, List.any_eq_false, List.countP_eq_zero]

/-! ## save invariants: the single batch timestamp -/

theorem saveLoop_rows_stamped (em : ErrModel) (σ0 : Store) (now : Nat) :
    ∀ rest τ,
      (∀ rec ∈ τ, rec ∈ σ0 ∨ rec.lastseen = now) →
      (∀ rec ∈ τ, hasTuple σ0 rec.ip rec.port rec.proto = false →
        rec.firstseen = now ∧ rec.lastseen = now) →
      (saveLoop em σ0 now rest τ).err = none →
      (∀ rec ∈ (saveLoop em σ0 now rest τ).store, rec ∈ σ0 ∨ rec.lastseen = now) ∧
      (∀ rec ∈ (saveLoop em σ0 now rest τ).store,
        hasTuple σ0 rec.ip rec.port rec.proto = false →
        rec.firstseen = now ∧ rec.lastseen = now) := by
  intro rest
  induction rest with
  | nil =>
    intro τ h1 h2 _
    exact ⟨h1, h2⟩
  | cons r rest ih =>
    intro τ h1 h2 herr
    rcases hpp : r.Ports with _ | ⟨p, ps⟩ <;> simp only [saveLoop, hpp] at herr ⊢
    · simp at herr
    · split_ifs at herr ⊢ with hb1 hb2 hb3 hb4 hb5
      · -- update branch
        apply ih _ ?_ ?_ herr
        · intro rec' hm'
          rw [applyUpdate, List.mem_map] at hm'
          obtain ⟨a, ha, hfa⟩ := hm'
          subst hfa
          by_cases hm : recMatches r.IP p.Port p.Proto a = true
          · rw [if_pos hm]
            exact Or.inr rfl
          · rw [if_neg hm]
            exact h1 a ha
        · intro rec' hm' hht
          rw [applyUpdate, List.mem_map] at hm'
          obtain ⟨a, ha, hfa⟩ := hm'
          subst hfa
          by_cases hm : recMatches r.IP p.Port p.Proto a = true
          · rw [if_pos hm] at hht ⊢
            have := h2 a ha hht
            exact ⟨this.1, rfl⟩
          · rw [if_neg hm] at hht ⊢
            exact h2 a ha hht
      · -- insert branch
        apply ih _ ?_ ?_ herr
        · intro rec' hm'
          rcases List.mem_append.mp hm' with hl | hr
          · exact h1 rec' hl
          · rw [List.mem_singleton] at hr
            subst hr
            exact Or.inr rfl
        · intro rec' hm' hht
          rcases List.mem_append.mp hm' with hl | hr
          · exact h2 rec' hl hht
          · rw [List.mem_singleton] at hr
            subst hr
            exact ⟨rfl, rfl⟩

/-! ## save invariants: exactly one inserted record per fresh tuple -/

theorem saveLoop_count_one (em : ErrModel) (σ0 : Store) (now : Nat)
    (tip : String) (tp : Int) (tproto : String)
    (ht : hasTuple σ0 tip tp tproto = false) :
    ∀ rest τ,
      countTuple τ tip tp tproto ≤ 1 →
      ((∃ e ∈ rest, ∃ p ps, e.Ports = p :: ps ∧ e.IP = tip ∧ p.Port = tp ∧ p.Proto = tproto)
          ∨ countTuple τ tip tp tproto = 1) →
      (saveLoop em σ0 now rest τ).err = none →
      countTuple (saveLoop em σ0 now rest τ).store tip tp tproto = 1 := by
  intro rest
  induction rest with
  | nil =>
    intro τ _ hcase _
    rcases hcase with ⟨e, he, -⟩ | hc
    · exact absurd he (List.not_mem_nil e)
    · exact hc
  | cons r rest ih =>
    intro τ hle hcase herr
    rcases hpp : r.Ports with _ | ⟨p, ps⟩ <;> simp only [saveLoop, hpp] at herr ⊢
    · simp at herr
    · split_ifs at herr ⊢ with hb1 hb2 hb3 hb4 hb5
      · -- update branch: the count of the fresh tuple is untouched
        apply ih _ ?_ ?_ herr
        · rw [countTuple_applyUpdate]
          exact hle
        · rcases hcase with ⟨e, he, p', ps', hps, hip, hport, hproto⟩ | hc
          · rcases List.mem_cons.mp he with rfl | he'
            · rw [hpp] at hps
              injection hps with hp _
              subst hp
              rw [hip, hport, hproto] at hb2
              rw [hb2] at ht
              exact absurd ht (by simp)
            · exact Or.inl ⟨e, he', p', ps', hps, hip, hport, hproto⟩
          · right
            rw [countTuple_applyUpdate]
            exact hc
      · -- insert branch
        by_cases hsame : r.IP = tip ∧ p.Port = tp ∧ p.Proto = tproto
        · obtain ⟨e1, e2, e3⟩ := hsame
          have hτf : hasTuple τ tip tp tproto = false := by
            rw [← e1, ← e2, ← e3]
            exact Bool.eq_false_iff.mpr hb5
          have hτ0 : countTuple τ tip tp tproto = 0 := hasTuple_false_count.mp hτf
          have hnew : recMatches tip tp tproto ⟨r.IP, p.Port, p.Proto, now, now⟩ = true := by
            simp [recMatches, e1, e2, e3]
          apply ih _ ?_ ?_ herr
          · rw [countTuple_append_one, hτ0, if_pos hnew]
          · right
            rw [countTuple_append_one, hτ0, if_pos hnew]
        · have hnew : recMatches tip tp tproto ⟨r.IP, p.Port, p.Proto, now, now⟩ = false := by
            rw [Bool.eq_false_iff]
            intro hx
            apply hsame
            have hx' := hx
            simp only [recMatches, Bool.and_eq_true, beq_iff_eq] at hx'
            exact ⟨hx'.1.1, hx'.1.2, hx'.2⟩
          apply ih _ ?_ ?_ herr
          · rw [countTuple_append_one, if_neg (by rw [hnew]; exact Bool.false_ne_true)]
            simpa using hle
          · rcases hcase with ⟨e, he, p', ps', hps, hip, hport, hproto⟩ | hc
            · rcases List.mem_cons.mp he with rfl | he'
              · rw [hpp] at hps
                injection hps with hp _
                subst hp
                exact absurd ⟨hip, hport, hproto⟩ hsame
              · exact Or.inl ⟨e, he', p', ps', hps, hip, hport, hproto⟩
            · right
              rw [countTuple_append_one, if_neg (by rw [hnew]; exact Bool.false_ne_true)]
              simpa using hc

/-! ## Claim C5 -/

/-- C5: `save` stamps the whole batch with the single timestamp
computed before the loop — on success every record either predates the
batch or carries `lastseen = now`, every record whose tuple was fresh
carries `firstseen = lastseen = now`, and every batch entry over a
fresh tuple ends up with exactly one stored record for its tuple. -/
theorem c5_single_timestamp (em : ErrModel) (σ : Store) (now : Nat) (batch : List result)
    (herr : (save em σ now batch).err = none) :
    (∀ rec ∈ (save em σ now batch).store, rec ∈ σ ∨ rec.lastseen = now) ∧
    (∀ rec ∈ (save em σ now batch).store,
      hasTuple σ rec.ip rec.port rec.proto = false →
      rec.firstseen = now ∧ rec.lastseen = now) ∧
    (∀ e ∈ batch, ∀ p ps, e.Ports = p :: ps →
      hasTuple σ e.IP p.Port p.Proto = false →
      countTuple (save em σ now batch).store e.IP p.Port p.Proto = 1) := by
  have base2 : ∀ rec ∈ σ, hasTuple σ rec.ip rec.port rec.proto = false →
      rec.firstseen = now ∧ rec.lastseen = now := by
    intro rec h hf
    rw [hasTuple_of_mem h] at hf
    exact absurd hf (by simp)
  obtain ⟨i1, i2⟩ :=
    saveLoop_rows_stamped em σ now batch σ (fun rec h => Or.inl h) base2 herr
  refine ⟨i1, i2, ?_⟩
  intro e he p ps hps hht
  apply saveLoop_count_one em σ now e.IP p.Port p.Proto hht batch σ ?_ ?_ herr
  · rw [hasTuple_false_count.mp hht]
    omega
  · exact Or.inl ⟨e, he, p, ps, hps, rfl, rfl, rfl⟩

/-- C5 witness: ingesting the fresh tuple `(10.0.0.1,22,tcp)` at minute
7 leaves exactly one record for it. -/
theorem c5_witness :
    countTuple (save noErr [] 7 c5Batch).store "10.0.0.1" 22 "tcp" = 1 :=
  (c5_single_timestamp noErr [] 7 c5Batch rfl).2.2 ⟨"10.0.0.1", [sshPort]⟩
    (by decide) sshPort [] rfl (by decide)

/-! ## save invariants: uniqueness and timestamp order -/

theorem update_preserves_tuple (now : Nat) (ip2 : String) (p2 : Int) (proto2 : String)
    (rec : ScanRecord) :
    ((if recMatches ip2 p2 proto2 rec then { rec with lastseen := now } else rec)
        : ScanRecord).ip = rec.ip ∧
    ((if recMatches ip2 p2 proto2 rec then { rec with lastseen := now } else rec)
        : ScanRecord).port = rec.port ∧
    ((if recMatches ip2 p2 proto2 rec then { rec with lastseen := now } else rec)
        : ScanRecord).proto = rec.proto ∧
    ((if recMatches ip2 p2 proto2 rec then { rec with lastseen := now } else rec)
        : ScanRecord).firstseen = rec.firstseen := by
  split <;> exact ⟨rfl, rfl, rfl, rfl⟩

theorem tupleUnique_applyUpdate (now : Nat) (ip2 : String) (p2 : Int) (proto2 : String)
    {τ : Store} (h : TupleUnique τ) : TupleUnique (applyUpdate now ip2 p2 proto2 τ) := by
  unfold TupleUnique applyUpdate
  apply List.Pairwise.map _ _ h
  intro a b hab
  obtain ⟨ia, pa, ra, -⟩ := update_preserves_tuple now ip2 p2 proto2 a
  obtain ⟨ib, pb, rb, -⟩ := update_preserves_tuple now ip2 p2 proto2 b
  rw [ia, pa, ra, ib, pb, rb]
  exact hab

theorem saveLoop_unique_inv (em : ErrModel) (σ0 : Store) (now : Nat) :
    ∀ rest τ,
      TupleUnique τ →
      (∀ rec ∈ τ, rec.firstseen ≤ rec.lastseen ∧ rec.lastseen ≤ now) →
      (saveLoop em σ0 now rest τ).err = none →
      TupleUnique (saveLoop em σ0 now rest τ).store ∧
      ∀ rec ∈ (saveLoop em σ0 now rest τ).store,
        rec.firstseen ≤ rec.lastseen ∧ rec.lastseen ≤ now := by
  intro rest
  induction rest with
  | nil =>
    intro τ hu hts _
    exact ⟨hu, hts⟩
  | cons r rest ih =>
    intro τ hu hts herr
    rcases hpp : r.Ports with _ | ⟨p, ps⟩ <;> simp only [saveLoop, hpp] at herr ⊢
    · simp at herr
    · split_ifs at herr ⊢ with hb1 hb2 hb3 hb4 hb5
      · -- update branch
        apply ih _ (tupleUnique_applyUpdate now r.IP p.Port p.Proto hu) ?_ herr
        intro rec' hm'
        rw [applyUpdate, List.mem_map] at hm'
        obtain ⟨a, ha, hfa⟩ := hm'
        subst hfa
        by_cases hm : recMatches r.IP p.Port p.Proto a = true
        · rw [if_pos hm]
          exact ⟨le_trans (hts a ha).1 (hts a ha).2, le_refl now⟩
        · rw [if_neg hm]
          exact hts a ha
      · -- insert branch
        apply ih _ ?_ ?_ herr
        · unfold TupleUnique
          rw [List.pairwise_append]
          refine ⟨hu, List.pairwise_singleton _ _, ?_⟩
          intro a ha b hb
          rw [List.mem_singleton] at hb
          subst hb
          have hf : hasTuple τ r.IP p.Port p.Proto = false := Bool.eq_false_iff.mpr hb5
          have hfa := List.any_eq_false.mp hf a ha
          rintro ⟨e1, e2, e3⟩
          apply hfa
          simp [recMatches, e1, e2, e3]
        · intro rec' hm'
          rcases List.mem_append.mp hm' with hl | hr
          · exact hts rec' hl
          · rw [List.mem_singleton] at hr
            subst hr
            exact ⟨le_refl now, le_refl now⟩

theorem reachable_inv (t : Nat) (σ : Store) (h : Reachable t σ) :
    TupleUnique σ ∧ ∀ rec ∈ σ, rec.firstseen ≤ rec.lastseen ∧ rec.lastseen ≤ t := by
  induction h with
  | init => exact ⟨List.Pairwise.nil, fun rec hm => absurd hm (List.not_mem_nil rec)⟩
  | step em batch now hr hle herr ih =>
    obtain ⟨iu, its⟩ := ih
    exact saveLoop_unique_inv em _ now batch _ iu
      (fun rec hm => ⟨(its rec hm).1, le_trans (its rec hm).2 hle⟩) herr

/-! ## Claim C6 -/

/-- C6: in every store state reachable by successful ingests with
non-decreasing batch timestamps, at most one record exists per identity
tuple and every record satisfies `firstseen ≤ lastseen`. -/
theorem c6_reachable_invariant (t : Nat) (σ : Store) (h : Reachable t σ) :
    TupleUnique σ ∧ ∀ rec ∈ σ, rec.firstseen ≤ rec.lastseen := by
  obtain ⟨h1, h2⟩ := reachable_inv t σ h
  exact ⟨h1, fun rec hm => (h2 rec hm).1⟩

/-- C6 witness: the store reached by ingesting the three-row batch into
the empty store at minute 3 keeps tuples unique. -/
theorem c6_witness : TupleUnique (save noErr [] 3 c3Batch).store :=
  (c6_reachable_invariant 3 (save noErr [] 3 c3Batch).store
    (Reachable.step noErr c3Batch 3 Reachable.init (by omega) rfl)).1

end Scan
